import Mathlib

/-!
Verification of the catppuccin-customization palette editor (`src/main.py`).

The Python program is shallowly embedded here:
* Python floats are modelled as rationals (`ℚ`); the spec states the edit
  arithmetic as exact algebraic laws.
* Python exceptions (e.g. `ZeroDivisionError`) are modelled with `Option`:
  `none` is a raised exception.
* The `coloraide` color engine is an external collaborator with a stable
  contract (spec section 6), so it is modelled as an abstract `ColorEngine`
  structure over an arbitrary working-representation type `W`.
* Methods that mutate their receiver in place (`Color.update`,
  `Palette.edit`) are modelled by returning the updated value; methods that
  build a fresh struct with `msgspec.structs.replace` and leave their inputs
  untouched (`Palette.to_hex`, the per-variant rule copies in `Palette.edit`)
  additionally return the receiver or the config so that frame claims can be
  stated.
-/

namespace Catppuccin

/-- The three edit operation kinds of `Edit.type` in `src/main.py`
(`Literal['value', 'add', 'multiply']`); the spec calls `value` "set". -/
inductive EditType where
  | value
  | add
  | multiply
deriving DecidableEq, Repr

/-- The `Edit` msgspec struct of `src/main.py`: one declarative edit rule.
`variable_` is the channel name (`variable` in Python), `inverse_light` is
the private `_inverse_light` context flag, default `False`. -/
structure Edit where
  variable_ : String
  value : ℚ
  type : EditType := .value
  name : Option String := none
  accent : Option Bool := none
  inverse_light : Bool := false
deriving DecidableEq, Repr

/-- Membership in the lightness channel set, `self.variable in {'l', 'lightness'}`
from `Edit.__call__`. -/
def isLightness (s : String) : Bool :=
  s == "l" || s == "lightness"

/-- `Edit.__call__(value)` from `src/main.py`.  Python raises
`ZeroDivisionError` on `1.0 / self.value` when `self.value` is zero, which
is the `none` branch here. -/
def Edit.call (e : Edit) (value : ℚ) : Option ℚ :=
  let inverse := e.inverse_light && isLightness e.variable_
  match e.type with
  | .value => some e.value
  | .add => some (value + (if inverse then -e.value else e.value))
  | .multiply =>
      if inverse then
        if e.value = 0 then none
        else some (value * (1 / e.value))
      else some (value * e.value)

/-- The `Config` msgspec struct decoded from `config.toml`. -/
structure Config where
  color_space : String := "okhsl"
  inverse_edit_light : Bool := true
  edits : List Edit := []
deriving DecidableEq, Repr

/-- The external `coloraide` color engine (spec section 6 collaborator
contract), abstracted over the working representation type `W`:
construct-from-hex, convert-to-space, get/set a named channel, and render
to a hex string. -/
structure ColorEngine (W : Type) where
  ofHex : String → W
  convert : W → String → W
  get : W → String → ℚ
  set : W → String → ℚ → W
  toHexStr : W → String

/-- The `Color` msgspec struct: wire hex, accent flag, and the working
representation `color` (a `coloraide` value in Python). -/
structure Color (W : Type) where
  hex : String
  accent : Bool
  color : W
deriving DecidableEq, Repr

/-- `Color.__post_init__`: derive the working representation from the hex
string at construction time (`_Color(self.hex).convert('okhsl')`). -/
def Color.ofInput {W : Type} (E : ColorEngine W) (hex : String) (accent : Bool) :
    Color W :=
  { hex := hex, accent := accent, color := E.convert (E.ofHex hex) "okhsl" }

/-- `Color.edit(key, edit)`: `self.color.set(key, edit)` with a callable
value reads the channel's current value, applies the callable and writes the
result back.  A raised exception inside the callable (`Edit.call` returning
`none`) propagates. -/
def Color.edit {W : Type} (E : ColorEngine W) (c : Color W) (key : String)
    (e : Edit) : Option (Color W) :=
  (e.call (E.get c.color key)).map fun v => { c with color := E.set c.color key v }

/-- `Color.update()`: commit the working representation back to the wire
hex, `self.hex = self.color.convert('srgb').to_string(hex=True)`. -/
def Color.update {W : Type} (E : ColorEngine W) (c : Color W) : Color W :=
  { c with hex := E.toHexStr (E.convert c.color "srgb") }

/-- The `Palette` msgspec struct: one variant with its insertion-ordered
color mapping, modelled as an association list with the dict's key order. -/
structure Palette (W : Type) where
  name : String
  dark : Bool
  colors : List (String × Color W)
deriving DecidableEq, Repr

/-- The rule-applicability test inlined in `Palette.edit`:
`edit.name == name or edit.accent == color.accent`; Python `None` never
equals a string or a bool, hence the `Option`-level equality. -/
def Edit.applies (e : Edit) (name : String) (accent : Bool) : Bool :=
  e.name == some name || e.accent == some accent

/-- The per-variant invert flag computed first in `Palette.edit`:
`inverse = conf.inverse_edit_light and not self.dark`. -/
def variantInverse (conf : Config) (dark : Bool) : Bool :=
  conf.inverse_edit_light && !dark

/-- The per-variant derived rule copies of `Palette.edit`:
`msgspec.structs.replace(x, _inverse_light=inverse) for x in conf.edits`. -/
def variantEdits (conf : Config) (dark : Bool) : List Edit :=
  conf.edits.map fun x => { x with inverse_light := variantInverse conf dark }

/-- The inner rule loop of `Palette.edit` for a single color: apply, in
configured order, every rule whose selector matches. -/
def applyRules {W : Type} (E : ColorEngine W) (name : String) :
    List Edit → Color W → Option (Color W)
  | [], c => some c
  | e :: es, c =>
      if e.applies name c.accent then
        match Color.edit E c e.variable_ e with
        | none => none
        | some c' => applyRules E name es c'
      else applyRules E name es c

/-- One iteration of the first loop of `Palette.edit` for color `(name, c)`:
convert the working representation to the configured space, then run the
matching rules. -/
def editColor {W : Type} (E : ColorEngine W) (cs : String) (edits : List Edit)
    (name : String) (c : Color W) : Option (Color W) :=
  applyRules E name edits { c with color := E.convert c.color cs }

/-- The first loop of `Palette.edit` over all colors of the variant. -/
def editColors {W : Type} (E : ColorEngine W) (cs : String) (edits : List Edit) :
    List (String × Color W) → Option (List (String × Color W))
  | [] => some []
  | (n, c) :: rest =>
      match editColor E cs edits n c with
      | none => none
      | some c' =>
          match editColors E cs edits rest with
          | none => none
          | some rest' => some ((n, c') :: rest')

/-- `Palette.edit(conf)` from `src/main.py`: compute the per-variant invert
flag, derive per-variant rule copies, run the edit loop over the colors, then
commit every color with `Color.update`.  The second component of the result
is what `conf` refers to after the call: `msgspec.structs.replace` builds
fresh copies, so the shared config is returned untouched. -/
def Palette.editFull {W : Type} (E : ColorEngine W) (p : Palette W)
    (conf : Config) : Option (Palette W × Config) :=
  match editColors E conf.color_space (variantEdits conf p.dark) p.colors with
  | none => none
  | some colors' =>
      some ({ p with colors := colors'.map fun nc => (nc.1, Color.update E nc.2) },
        conf)

/-- `Palette.edit(conf)`, result palette only. -/
def Palette.editRun {W : Type} (E : ColorEngine W) (p : Palette W)
    (conf : Config) : Option (Palette W) :=
  (p.editFull E conf).map Prod.fst

/-- `Palette.to_hex()` from `src/main.py`: build the flattened name-to-hex
mapping `{name: f'{color.hex}ff'}`.  The second component is what `self`
refers to after the call: `msgspec.structs.replace` returns a fresh struct,
so the receiver is returned untouched. -/
def Palette.toHexFull {W : Type} (p : Palette W) :
    List (String × String) × Palette W :=
  (p.colors.map fun nc => (nc.1, nc.2.hex ++ "ff"), p)

/-- The flattened mapping of `Palette.to_hex().colors`. -/
def Palette.toHex {W : Type} (p : Palette W) : List (String × String) :=
  p.toHexFull.1

/-- The `Palettes` msgspec struct: version plus the four fixed variant
slots, in declaration order. -/
structure Palettes (W : Type) where
  version : String
  latte : Palette W
  frappe : Palette W
  macchiato : Palette W
  mocha : Palette W
deriving DecidableEq, Repr

/-- `Palettes.palettes()`: iterate the msgspec fields in declaration order,
yielding the `(slot-name, variant)` pairs for the fields of type `Palette`. -/
def Palettes.palettes {W : Type} (p : Palettes W) :
    List (String × Palette W) :=
  [("latte", p.latte), ("frappe", p.frappe), ("macchiato", p.macchiato),
    ("mocha", p.mocha)]

/-- An input palette document, one optional entry per field of `Palettes`:
`none` means the field is missing from the JSON document. -/
structure PalettesDoc (W : Type) where
  version : Option String := none
  latte : Option (Palette W) := none
  frappe : Option (Palette W) := none
  macchiato : Option (Palette W) := none
  mocha : Option (Palette W) := none
deriving DecidableEq, Repr

/-- `read_palettes` decodes with `msgspec.json.decode(..., type=Palettes,
strict=False)`: lenient about extra fields and value coercions, but a
missing required field (none of the `Palettes` fields has a default) raises
a fatal `ValidationError`.  This definition models that msgspec decoding
contract for the required slots. -/
def decodePalettes {W : Type} (d : PalettesDoc W) : Option (Palettes W) :=
  match d.version, d.latte, d.frappe, d.macchiato, d.mocha with
  | some v, some l, some f, some m, some mo =>
      some { version := v, latte := l, frappe := f, macchiato := m, mocha := mo }
  | _, _, _, _, _ => none

/-- The edit phase of `main`: `for _, palette in palettes.palettes():
palette.edit(conf)`, applied to the four slots in iteration order. -/
def Palettes.editAll {W : Type} (E : ColorEngine W) (ps : Palettes W)
    (conf : Config) : Option (Palettes W) :=
  match ps.latte.editRun E conf, ps.frappe.editRun E conf,
      ps.macchiato.editRun E conf, ps.mocha.editRun E conf with
  | some l, some f, some m, some mo =>
      some { ps with latte := l, frappe := f, macchiato := m, mocha := mo }
  | _, _, _, _ => none

/-- `JsonEncoder._palettes` in non-detailed mode: replace every variant by
its flattened `to_hex().colors` mapping, keyed by the slot names from
`Palettes.palettes()`. -/
def flattenPalettes {W : Type} (ps : Palettes W) :
    List (String × List (String × String)) :=
  ps.palettes.map fun np => (np.1, np.2.toHex)

/-- The round-trip contract of the color engine collaborator for one stored
color (spec section 8): converting the working representation to the
configured space and committing back to srgb hex reproduces the stored wire
hex exactly. -/
def ColorEngine.roundTrips {W : Type} (E : ColorEngine W) (cs : String)
    (c : Color W) : Prop :=
  E.toHexStr (E.convert (E.convert c.color cs) "srgb") = c.hex

/-- A concrete color engine used to evaluate the development on closed
inputs: the working representation is the hex string itself and every
operation is the identity on it. -/
def idEngine : ColorEngine String where
  ofHex := id
  convert := fun w _ => w
  get := fun _ _ => 0
  set := fun w _ _ => w
  toHexStr := id

/-- C1: an edit rule applies to a color iff its name selector is set and
equals the color's name, or its accent selector is set and equals the
color's accent flag; a rule with neither selector set matches no color. -/
theorem edit_applies_iff (e : Edit) (n : String) (a : Bool) :
    (e.applies n a = true ↔ (e.name = some n ∨ e.accent = some a)) ∧
    (e.name = none ∧ e.accent = none → e.applies n a = false) := by
  constructor
  · simp [Edit.applies]
  · rintro ⟨h1, h2⟩
    simp [Edit.applies, h1, h2]

theorem edit_applies_iff_witness :
    ({ variable_ := "l", value := 0 } : Edit).applies "red" true = false :=
  (edit_applies_iff { variable_ := "l", value := 0 } "red" true).2 ⟨rfl, rfl⟩

/-- C2: an `add` rule yields `current + value` when the invert flag is
false; with the flag true it yields `current - value` on a lightness
channel and `current + value` on any other channel. -/
theorem edit_call_add_spec (e : Edit) (current : ℚ) (ht : e.type = .add) :
    (e.inverse_light = false → e.call current = some (current + e.value)) ∧
    (e.inverse_light = true → isLightness e.variable_ = true →
      e.call current = some (current - e.value)) ∧
    (e.inverse_light = true → isLightness e.variable_ = false →
      e.call current = some (current + e.value)) := by
  refine ⟨fun h => ?_, fun h hl => ?_, fun h hl => ?_⟩
  · simp [Edit.call, ht, h]
  · simp [Edit.call, ht, h, hl, sub_eq_add_neg]
  · simp [Edit.call, ht, h, hl]

theorem edit_call_add_spec_witness :
    ({ variable_ := "l", value := 2, type := .add, inverse_light := true } :
      Edit).call 5 = some (5 - 2) :=
  (edit_call_add_spec _ 5 rfl).2.1 rfl rfl

/-- C3: a `multiply` rule yields `current * value` when the invert flag is
false or the channel is not a lightness channel, and `current / value`
(for nonzero `value`; the zero case raises, see C4) when the flag is true
on a lightness channel; a `value` rule (spec: "set") yields `rule.value`
regardless of the current value and the invert flag. -/
theorem edit_call_multiply_set_spec (e : Edit) (current : ℚ) :
    (e.type = .multiply → e.inverse_light = false →
      e.call current = some (current * e.value)) ∧
    (e.type = .multiply → e.inverse_light = true →
      isLightness e.variable_ = true → e.value ≠ 0 →
      e.call current = some (current / e.value)) ∧
    (e.type = .multiply → e.inverse_light = true →
      isLightness e.variable_ = false →
      e.call current = some (current * e.value)) ∧
    (e.type = .value → e.call current = some e.value) := by
  refine ⟨fun ht h => ?_, fun ht h hl hv => ?_, fun ht h hl => ?_, fun ht => ?_⟩
  · simp [Edit.call, ht, h]
  · simp [Edit.call, ht, h, hl, hv, div_eq_mul_inv, one_div]
  · simp [Edit.call, ht, h, hl]
  · simp [Edit.call, ht]

theorem edit_call_multiply_set_spec_witness :
    ({ variable_ := "lightness", value := 4, type := .multiply,
          inverse_light := true } : Edit).call 8 = some (8 / 4) :=
  (edit_call_multiply_set_spec _ 8).2.1 rfl rfl rfl (by norm_num)

/-- C4: a `multiply` rule with value 0, invert flag true and a lightness
channel raises (Python `ZeroDivisionError` on `1.0 / self.value`), modelled
as `none`; the error propagates through `Color.edit`. -/
theorem edit_call_div_zero_raises {W : Type} (E : ColorEngine W) (c : Color W)
    (e : Edit) (current : ℚ) (ht : e.type = .multiply) (hv : e.value = 0)
    (hi : e.inverse_light = true) (hl : isLightness e.variable_ = true) :
    e.call current = none ∧ Color.edit E c e.variable_ e = none := by
  have h : ∀ x : ℚ, e.call x = none := fun x => by
    simp [Edit.call, ht, hv, hi, hl]
  exact ⟨h current, by simp [Color.edit, h]⟩

theorem edit_call_div_zero_raises_witness :
    ({ variable_ := "l", value := 0, type := .multiply,
          inverse_light := true } : Edit).call 7 = none :=
  (edit_call_div_zero_raises idEngine ⟨"#ff0000", true, "#ff0000"⟩
    { variable_ := "l", value := 0, type := .multiply, inverse_light := true } 7
    rfl rfl rfl rfl).1

/-- C5: every per-variant derived rule carries the invert flag
`conf.inverse_edit_light AND NOT dark`; in particular for a dark variant
the flag is false regardless of the config flag. -/
theorem variant_inverse_flag_spec (conf : Config) (dark : Bool) :
    (∀ e ∈ variantEdits conf dark,
      e.inverse_light = (conf.inverse_edit_light && !dark)) ∧
    (dark = true → ∀ e ∈ variantEdits conf dark, e.inverse_light = false) := by
  constructor
  · intro e he
    rw [variantEdits] at he
    simp only [List.mem_map] at he
    obtain ⟨x, -, rfl⟩ := he
    rfl
  · intro hd e he
    rw [variantEdits] at he
    simp only [List.mem_map] at he
    obtain ⟨x, -, rfl⟩ := he
    simp [variantInverse, hd]

theorem variant_inverse_flag_spec_witness :
    ({ variable_ := "l", value := 1, inverse_light := false } : Edit).inverse_light
      = false :=
  (variant_inverse_flag_spec { edits := [{ variable_ := "l", value := 1 }] }
    true).2 rfl _ (by decide)

/-- C7: flattening maps each color name to the color's current wire hex
with the fixed two-character fully-opaque alpha suffix `"ff"` appended,
preserves the color names in order, and leaves the receiver palette — its
stored `Color` objects and their hex fields — untouched. -/
theorem toHex_flatten_spec {W : Type} (p : Palette W) :
    p.toHexFull.2 = p ∧
    p.toHex.map Prod.fst = p.colors.map Prod.fst ∧
    (∀ nc ∈ p.colors, (nc.1, nc.2.hex ++ "ff") ∈ p.toHex) ∧
    "ff".length = 2 := by
  refine ⟨rfl, ?_, ?_, rfl⟩
  · simp [Palette.toHex, Palette.toHexFull]
  · intro nc hnc
    simp only [Palette.toHex, Palette.toHexFull, List.mem_map]
    exact ⟨nc, hnc, rfl⟩

theorem toHex_flatten_spec_witness :
    ("red", "#ff0000" ++ "ff") ∈
      (Palette.toHex ⟨"latte", false, [("red", ⟨"#ff0000", true, "#ff0000"⟩)]⟩ :
        List (String × String)) :=
  (toHex_flatten_spec ⟨"latte", false, [("red", ⟨"#ff0000", true, "#ff0000"⟩)]⟩).2.2.1
    ("red", ⟨"#ff0000", true, "#ff0000"⟩) (by decide)

/-- C8: a successful `Palette.edit` leaves the shared config untouched
(the rule list, and so every rule's default invert context flag, is
unchanged); the invert flag is attached only to the per-variant derived
copy of each rule. -/
theorem edit_preserves_config {W : Type} (E : ColorEngine W) (p : Palette W)
    (conf : Config) (p' : Palette W) (conf' : Config)
    (h : p.editFull E conf = some (p', conf')) :
    conf' = conf ∧
    ∀ x ∈ conf.edits,
      ({ x with inverse_light := variantInverse conf p.dark } : Edit) ∈
        variantEdits conf p.dark := by
  constructor
  · rw [Palette.editFull] at h
    rcases heq : editColors E conf.color_space (variantEdits conf p.dark) p.colors
      with - | colors'
    · rw [heq] at h
      exact absurd h (by simp)
    · rw [heq] at h
      exact (congrArg Prod.snd (Option.some.inj h)).symm
  · intro x hx
    rw [variantEdits]
    exact List.mem_map.2 ⟨x, hx, rfl⟩

theorem edit_preserves_config_witness :
    ({ variable_ := "l", value := 1, inverse_light := true } : Edit) ∈
      variantEdits { edits := [{ variable_ := "l", value := 1 }] } false :=
  (edit_preserves_config idEngine ⟨"latte", false, []⟩
    { edits := [{ variable_ := "l", value := 1 }] } ⟨"latte", false, []⟩
    { edits := [{ variable_ := "l", value := 1 }] } rfl).2
    { variable_ := "l", value := 1 } (by decide)

/-- C9: a palette set exposes exactly the four fixed variant slots,
traversed in declaration order, and decoding a document missing any one of
the four slots fails rather than defaulting silently. -/
theorem palettes_slots_spec {W : Type} (ps : Palettes W) (d : PalettesDoc W) :
    ps.palettes.map Prod.fst = ["latte", "frappe", "macchiato", "mocha"] ∧
    ps.palettes.length = 4 ∧
    ((d.latte = none ∨ d.frappe = none ∨ d.macchiato = none ∨ d.mocha = none) →
      decodePalettes d = none) := by
  refine ⟨rfl, rfl, fun h => ?_⟩
  rcases hv : d.version with - | v <;> rcases hl : d.latte with - | l <;>
    rcases hf : d.frappe with - | f <;> rcases hm : d.macchiato with - | m <;>
    rcases hmo : d.mocha with - | mo <;>
    simp_all [decodePalettes]

theorem palettes_slots_spec_witness :
    decodePalettes (W := Unit) { version := some "1" } = none :=
  (palettes_slots_spec
    ⟨"1", ⟨"", false, []⟩, ⟨"", false, []⟩, ⟨"", false, []⟩, ⟨"", false, []⟩⟩
    { version := some "1" }).2.2 (Or.inl rfl)

/-- The edit loop preserves the ordered list of color names. -/
theorem editColors_keys {W : Type} (E : ColorEngine W) (cs : String)
    (edits : List Edit) :
    ∀ l l' : List (String × Color W), editColors E cs edits l = some l' →
      l'.map Prod.fst = l.map Prod.fst := by
  intro l
  induction l with
  | nil =>
    intro l' h
    rw [editColors] at h
    rw [← Option.some.inj h]
  | cons nc rest ih =>
    intro l' h
    rw [editColors] at h
    rcases h1 : editColor E cs edits nc.1 nc.2 with - | c'
    · rw [h1] at h
      exact absurd h (by simp)
    · rw [h1] at h
      rcases h2 : editColors E cs edits rest with - | rest'
      · rw [h2] at h
        exact absurd h (by simp)
      · rw [h2] at h
        rw [← Option.some.inj h]
        simpa using ih rest' h2

/-- C10: a successful `Palette.edit` never adds, removes, renames or
reorders the entries of the variant's color mapping. -/
theorem edit_preserves_color_names {W : Type} (E : ColorEngine W)
    (p : Palette W) (conf : Config) (p' : Palette W)
    (h : p.editRun E conf = some p') :
    p'.colors.map Prod.fst = p.colors.map Prod.fst := by
  rw [Palette.editRun, Palette.editFull] at h
  rcases heq : editColors E conf.color_space (variantEdits conf p.dark) p.colors
    with - | colors'
  · rw [heq] at h
    exact absurd h (by simp)
  · rw [heq] at h
    have hp' := Option.some.inj (by simpa using h)
    rw [← hp']
    simpa using editColors_keys E conf.color_space (variantEdits conf p.dark)
      p.colors colors' heq

theorem edit_preserves_color_names_witness :
    (Palette.colors ⟨"latte", false, [("red", ⟨"#ff0000", true, "#ff0000"⟩)]⟩).map
        Prod.fst =
      (Palette.colors ⟨"latte", false, [("red", ⟨"#ff0000", true, "#ff0000"⟩)]⟩).map
        Prod.fst :=
  edit_preserves_color_names idEngine
    ⟨"latte", false, [("red", ⟨"#ff0000", true, "#ff0000"⟩)]⟩ {}
    ⟨"latte", false, [("red", ⟨"#ff0000", true, "#ff0000"⟩)]⟩ rfl

/-- A rule with neither selector set applies to no color. -/
theorem applies_of_none {e : Edit} (h1 : e.name = none) (h2 : e.accent = none)
    (n : String) (a : Bool) : e.applies n a = false := by
  simp [Edit.applies, h1, h2]

/-- The rule loop is the identity when no rule has a selector. -/
theorem applyRules_no_match {W : Type} (E : ColorEngine W) (n : String) :
    ∀ edits : List Edit, (∀ e ∈ edits, e.name = none ∧ e.accent = none) →
      ∀ c : Color W, applyRules E n edits c = some c := by
  intro edits
  induction edits with
  | nil => intro _ c; rfl
  | cons e es ih =>
    intro h c
    have he := h e (List.mem_cons_self e es)
    simp only [applyRules, applies_of_none he.1 he.2, Bool.false_eq_true,
      if_false]
    exact ih (fun x hx => h x (List.mem_cons_of_mem e hx)) c

/-- Deriving the per-variant rule copies changes no selector. -/
theorem variantEdits_selectors (conf : Config) (dark : Bool)
    (h : ∀ e ∈ conf.edits, e.name = none ∧ e.accent = none) :
    ∀ e ∈ variantEdits conf dark, e.name = none ∧ e.accent = none := by
  intro e he
  rw [variantEdits] at he
  obtain ⟨x, hx, rfl⟩ := List.mem_map.1 he
  exact h x hx

/-- With selector-free rules, the edit loop only converts each color's
working representation to the configured space. -/
theorem editColors_no_match {W : Type} (E : ColorEngine W) (cs : String)
    (edits : List Edit) (h : ∀ e ∈ edits, e.name = none ∧ e.accent = none) :
    ∀ l : List (String × Color W),
      editColors E cs edits l =
        some (l.map fun nc =>
          (nc.1, { nc.2 with color := E.convert nc.2.color cs })) := by
  intro l
  induction l with
  | nil => rfl
  | cons nc rest ih =>
    obtain ⟨n, c⟩ := nc
    simp only [editColors, editColor, List.map]
    rw [applyRules_no_match E n edits h, ih]

/-- With selector-free rules and a round-tripping engine, `Palette.edit`
succeeds and preserves every color's name and wire hex. -/
theorem editRun_no_match {W : Type} (E : ColorEngine W) (p : Palette W)
    (conf : Config)
    (hsel : ∀ e ∈ conf.edits, e.name = none ∧ e.accent = none)
    (hrt : ∀ nc ∈ p.colors, E.roundTrips conf.color_space nc.2) :
    (p.editRun E conf).map (fun q => q.colors.map fun nc => (nc.1, nc.2.hex)) =
      some (p.colors.map fun nc => (nc.1, nc.2.hex)) := by
  have hsel' := variantEdits_selectors conf p.dark hsel
  have hcols := editColors_no_match E conf.color_space _ hsel' p.colors
  rw [Palette.editRun, Palette.editFull, hcols]
  simp only [Option.map_some', List.map_map]
  refine congrArg some (List.map_congr_left fun nc hnc => ?_)
  have hr := hrt nc hnc
  rw [ColorEngine.roundTrips] at hr
  simp only [Function.comp, Color.update]
  rw [hr]

/-- Two palettes whose colors agree on names and hexes flatten equally. -/
theorem toHex_of_hexmap_eq {W : Type} {p q : Palette W}
    (h : q.colors.map (fun nc => (nc.1, nc.2.hex)) =
      p.colors.map (fun nc => (nc.1, nc.2.hex))) :
    q.toHex = p.toHex := by
  have hx : ∀ r : Palette W,
      r.toHex = (r.colors.map fun nc => (nc.1, nc.2.hex)).map
        fun x => (x.1, x.2 ++ "ff") := by
    intro r
    rw [List.map_map]
    rfl
  rw [hx q, hx p, h]

/-- C6: if every configured rule has neither selector set, the edit phase
of `main` succeeds, changes no color's name or hex in any variant, and the
flattened ("customized") serialization equals the flattened ("original")
serialization; requires the color-engine round-trip contract for the stored
colors. -/
theorem noop_edits_preserve_output {W : Type} (E : ColorEngine W)
    (ps : Palettes W) (conf : Config)
    (hsel : ∀ e ∈ conf.edits, e.name = none ∧ e.accent = none)
    (hrt : ∀ np ∈ ps.palettes, ∀ nc ∈ np.2.colors,
      E.roundTrips conf.color_space nc.2) :
    (ps.editAll E conf).map (fun q => q.palettes.map fun np =>
        (np.1, np.2.colors.map fun nc => (nc.1, nc.2.hex))) =
      some (ps.palettes.map fun np =>
        (np.1, np.2.colors.map fun nc => (nc.1, nc.2.hex))) ∧
    (ps.editAll E conf).map flattenPalettes = some (flattenPalettes ps) := by
  have h1 := editRun_no_match E ps.latte conf hsel
    (hrt ("latte", ps.latte) (by simp [Palettes.palettes]))
  have h2 := editRun_no_match E ps.frappe conf hsel
    (hrt ("frappe", ps.frappe) (by simp [Palettes.palettes]))
  have h3 := editRun_no_match E ps.macchiato conf hsel
    (hrt ("macchiato", ps.macchiato) (by simp [Palettes.palettes]))
  have h4 := editRun_no_match E ps.mocha conf hsel
    (hrt ("mocha", ps.mocha) (by simp [Palettes.palettes]))
  rcases e1 : ps.latte.editRun E conf with - | q1 <;> rw [e1] at h1
  · exact absurd h1 (by simp)
  rcases e2 : ps.frappe.editRun E conf with - | q2 <;> rw [e2] at h2
  · exact absurd h2 (by simp)
  rcases e3 : ps.macchiato.editRun E conf with - | q3 <;> rw [e3] at h3
  · exact absurd h3 (by simp)
  rcases e4 : ps.mocha.editRun E conf with - | q4 <;> rw [e4] at h4
  · exact absurd h4 (by simp)
  have hq1 : q1.colors.map (fun nc => (nc.1, nc.2.hex)) =
      ps.latte.colors.map (fun nc => (nc.1, nc.2.hex)) := Option.some.inj h1
  have hq2 : q2.colors.map (fun nc => (nc.1, nc.2.hex)) =
      ps.frappe.colors.map (fun nc => (nc.1, nc.2.hex)) := Option.some.inj h2
  have hq3 : q3.colors.map (fun nc => (nc.1, nc.2.hex)) =
      ps.macchiato.colors.map (fun nc => (nc.1, nc.2.hex)) := Option.some.inj h3
  have hq4 : q4.colors.map (fun nc => (nc.1, nc.2.hex)) =
      ps.mocha.colors.map (fun nc => (nc.1, nc.2.hex)) := Option.some.inj h4
  have hall : ps.editAll E conf =
      some { ps with latte := q1, frappe := q2, macchiato := q3, mocha := q4 } := by
    rw [Palettes.editAll, e1, e2, e3, e4]
  constructor
  · rw [hall]
    simp only [Option.map_some', Palettes.palettes, List.map]
    rw [hq1, hq2, hq3, hq4]
  · rw [hall]
    simp only [Option.map_some', flattenPalettes, Palettes.palettes, List.map]
    rw [toHex_of_hexmap_eq hq1, toHex_of_hexmap_eq hq2,
      toHex_of_hexmap_eq hq3, toHex_of_hexmap_eq hq4]

theorem noop_edits_preserve_output_witness :
    (Palettes.editAll idEngine
        ⟨"1", ⟨"latte", false, [("red", ⟨"#ff0000", true, "#ff0000"⟩)]⟩,
          ⟨"frappe", true, []⟩, ⟨"macchiato", true, []⟩,
          ⟨"mocha", true, []⟩⟩
        { edits := [{ variable_ := "l", value := 1, type := .add }] }).map
        flattenPalettes =
      some (flattenPalettes
        ⟨"1", ⟨"latte", false, [("red", ⟨"#ff0000", true, "#ff0000"⟩)]⟩,
          ⟨"frappe", true, []⟩, ⟨"macchiato", true, []⟩,
          ⟨"mocha", true, []⟩⟩) :=
  (noop_edits_preserve_output idEngine
    ⟨"1", ⟨"latte", false, [("red", ⟨"#ff0000", true, "#ff0000"⟩)]⟩,
      ⟨"frappe", true, []⟩, ⟨"macchiato", true, []⟩, ⟨"mocha", true, []⟩⟩
    { edits := [{ variable_ := "l", value := 1, type := .add }] }
    (by decide)
    (by
      intro np hnp nc hnc
      rw [ColorEngine.roundTrips]
      fin_cases hnp
      all_goals fin_cases hnc
      all_goals rfl)).2

end Catppuccin
